import Mathlib

/-!
Shallow embedding of the verysleepy-mcp profile decoder and analysis engine
(Go packages `internal/sleepy` and `internal/analyzer`).

Modelling conventions:
- Go `float64` durations and percentages are modelled as exact rationals (`ℚ`);
  decimal literals parse exactly, binary rounding is not modelled.
- Go `uint64` addresses are `Nat` (parsers enforce the 2^64 bound exactly as
  `strconv.ParseUint(_, 16, 64)` does).
- Go maps keyed by strings/addresses are association lists with
  insert-overwrite semantics; iteration order of Go maps is randomized, the
  model fixes first-insertion order (no claim depends on map iteration order).
- Byte streams are modelled as their list of scanned lines
  (`bufio.Scanner` over `\n`), and a zip archive as its ordered list of
  (member name, member lines) pairs.
- `strconv.ParseFloat` is modelled for decimal literals with optional sign,
  fraction and exponent; the special forms (Inf/NaN/hex floats/underscores)
  are outside the modelled scope (no claim depends on them).
-/

/- The Batteries rational-arithmetic primitives are `@[irreducible]`, which
blocks `decide`-style evaluation of concrete profiles; restore the default
transparency (kernel checking is unaffected). -/
set_option allowUnsafeReducibility true in
attribute [semireducible] Rat.add Rat.sub Rat.mul Rat.inv Rat.ofScientific

deriving instance DecidableEq for Except

namespace Sleepy

/-- Whitespace recognized by `strings.TrimSpace` / `strings.Fields`
(ASCII whitespace plus NEL and NBSP; other exotic Unicode spaces are outside
the modelled scope). -/
def isWS (c : Char) : Bool :=
  c == ' ' || c == '\t' || c == '\n' || c == Char.ofNat 11 ||
  c == Char.ofNat 12 || c == '\r' || c == Char.ofNat 133 || c == Char.ofNat 160

/-- `strings.TrimSpace`. -/
def trimGo (s : String) : String :=
  String.mk (((s.toList.dropWhile fun c => isWS c).reverse.dropWhile fun c => isWS c).reverse)

/-- A line that `strings.TrimSpace` sends to the empty string. -/
def isBlank (s : String) : Bool := trimGo s == ""

/-- One field-splitting step of `strings.Fields`: split on runs of whitespace,
no empty fields. -/
def goFieldsAux : List Char → List Char → List (List Char)
  | [], cur => if cur.isEmpty then [] else [cur]
  | c :: cs, cur =>
    if isWS c then
      if cur.isEmpty then goFieldsAux cs [] else cur :: goFieldsAux cs []
    else goFieldsAux cs (cur ++ [c])

/-- `strings.Fields`. -/
def goFields (s : String) : List String := (goFieldsAux s.toList []).map String.mk

/-- Decimal digit value of a character, if it is a digit. -/
def digitVal (c : Char) : Option Nat :=
  if '0' ≤ c ∧ c ≤ '9' then some (c.toNat - 48) else none

/-- Hexadecimal digit value of a character, if it is a hex digit
(`strconv.ParseUint` base 16 accepts both cases). -/
def hexVal (c : Char) : Option Nat :=
  if '0' ≤ c ∧ c ≤ '9' then some (c.toNat - 48)
  else if 'a' ≤ c ∧ c ≤ 'f' then some (c.toNat - 87)
  else if 'A' ≤ c ∧ c ≤ 'F' then some (c.toNat - 55)
  else none

/-- Accumulate decimal digits; fails on the first non-digit. -/
def decDigitsAux : List Char → Nat → Option Nat
  | [], acc => some acc
  | c :: cs, acc =>
    match digitVal c with
    | some d => decDigitsAux cs (acc * 10 + d)
    | none => none

/-- Accumulate hexadecimal digits; fails on the first non-hex-digit. -/
def hexDigitsAux : List Char → Nat → Option Nat
  | [], acc => some acc
  | c :: cs, acc =>
    match hexVal c with
    | some d => hexDigitsAux cs (acc * 16 + d)
    | none => none

/-- `strconv.ParseUint(s, 16, 64)`: nonempty all-hex-digit string whose value
fits in 64 bits (overflow is an error). -/
def hexDigits : List Char → Option Nat
  | [] => none
  | c :: cs =>
    (hexDigitsAux (c :: cs) 0).bind fun n =>
      if n < 2 ^ 64 then some n else none

/-- Core of `strconv.Atoi`: nonempty all-digit string within the int64 range
for the given sign. -/
def atoiCore (cs : List Char) (neg : Bool) : Option Int :=
  match cs with
  | [] => none
  | _ =>
    (decDigitsAux cs 0).bind fun n =>
      if neg then (if n ≤ 2 ^ 63 then some (-(n : Int)) else none)
      else (if n < 2 ^ 63 then some (n : Int) else none)

/-- `strconv.Atoi`: optional sign, then decimal digits, 64-bit range. -/
def atoiGo (s : String) : Option Int :=
  match s.toList with
  | '+' :: cs => atoiCore cs false
  | '-' :: cs => atoiCore cs true
  | cs => atoiCore cs false

/-- Longest decimal-digit run at the head of the character list. -/
def takeDigits : List Char → (List Char × List Char)
  | [] => ([], [])
  | c :: cs =>
    if '0' ≤ c ∧ c ≤ '9' then
      let p := takeDigits cs
      (c :: p.1, p.2)
    else ([], c :: cs)

/-- Numeric value of a list of (already validated) decimal digits. -/
def valOfDigits (cs : List Char) : Nat :=
  cs.foldl (fun acc c => acc * 10 + (c.toNat - 48)) 0

/-- `strconv.ParseFloat(s, 64)` restricted to decimal literals
(optional sign, integer and/or fractional digits, optional exponent),
evaluated exactly as a rational. -/
def parseFloatGo (s : String) : Option ℚ :=
  let p0 := s.toList
  let sp : ℚ × List Char :=
    match p0 with
    | '+' :: r => (1, r)
    | '-' :: r => (-1, r)
    | _ => (1, p0)
  let ip := takeDigits sp.2
  let fp : List Char × List Char :=
    match ip.2 with
    | '.' :: r => takeDigits r
    | _ => ([], ip.2)
  if ip.1.isEmpty ∧ fp.1.isEmpty then none
  else
    let mant : ℚ := (valOfDigits (ip.1 ++ fp.1) : ℚ) / (10 : ℚ) ^ fp.1.length
    match fp.2 with
    | [] => some (sp.1 * mant)
    | e :: r =>
      if e = 'e' ∨ e = 'E' then
        let es : Bool × List Char :=
          match r with
          | '+' :: rr => (false, rr)
          | '-' :: rr => (true, rr)
          | _ => (false, r)
        let ed := takeDigits es.2
        if ed.1.isEmpty ∨ ¬ ed.2.isEmpty then none
        else if es.1 then some (sp.1 * mant / (10 : ℚ) ^ valOfDigits ed.1)
        else some (sp.1 * mant * (10 : ℚ) ^ valOfDigits ed.1)
      else none

/-- Uppercase hex digit character (as produced by `fmt.Sprintf("%X", _)`). -/
def hexUpperChar (n : Nat) : Char :=
  if n < 10 then Char.ofNat (48 + n) else Char.ofNat (55 + n)

/-- Fuel-driven uppercase hex rendering (fuel `n + 1` always suffices). -/
def toHexAux : Nat → Nat → List Char
  | 0, _ => []
  | fuel + 1, n =>
    if n < 16 then [hexUpperChar n]
    else toHexAux fuel (n / 16) ++ [hexUpperChar (n % 16)]

/-- `fmt.Sprintf("%X", n)`: uppercase hexadecimal, no leading zeros. -/
def toHexUpper (n : Nat) : String := String.mk (toHexAux (n + 1) n)

/-- `Stats` record from `Stats.txt` (types.go). -/
structure Stats where
  Filename : String
  Duration : String
  Date : String
  NumSamples : Int
deriving DecidableEq, Repr

/-- One `Symbols.txt` entry (types.go). -/
structure Symbol where
  Address : String
  ModuleName : String
  ProcName : String
  FilePath : String
  LineNumber : Int
deriving DecidableEq, Repr

/-- One `Callstacks.txt` entry (types.go); `ThreadCounts` is the Go
`map[int]float64`, modelled as an association list. -/
structure Callstack where
  Addresses : List Nat
  ThreadCounts : List (Int × ℚ)
deriving DecidableEq, Repr

/-- One `Threads.txt` entry (types.go). -/
structure Thread where
  ID : Int
  Name : String
deriving DecidableEq, Repr

/-- The parsed profile aggregate (types.go). The Go `symbolMap` field is
modelled as the derived map `ProfileData.symbolMap` below, since
`ReadSleepyProfile` always rebuilds it in full from `Symbols`. -/
structure ProfileData where
  Stats : Stats
  Symbols : List Symbol
  Callstacks : List Callstack
  Threads : List Thread
deriving DecidableEq, Repr

/-- A resolved stack frame (types.go). -/
structure ResolvedFrame where
  Address : Nat
  Module : String
  Function : String
  SourceFile : String
  LineNumber : Int
deriving DecidableEq, Repr

/-- `(*Callstack).GetDuration`: the first stored thread count, 0 if none. -/
def Callstack.GetDuration (cs : Callstack) : ℚ :=
  match cs.ThreadCounts with
  | [] => 0
  | (_, d) :: _ => d

/-- The address-field parse performed by `buildSymbolMap`:
`strings.HasPrefix(a, "0x")` then `strconv.ParseUint(strings.TrimPrefix(a, "0x"), 16, 64)`. -/
def parseSymAddr (a : String) : Option Nat :=
  match a.toList with
  | '0' :: 'x' :: rest => hexDigits rest
  | _ => none

/-- Go-map insertion (overwrite the existing binding for the key, else append). -/
def mapInsert : List (Nat × Symbol) → Nat → Symbol → List (Nat × Symbol)
  | [], k, v => [(k, v)]
  | p :: ps, k, v => if p.1 = k then (k, v) :: ps else p :: mapInsert ps k v

/-- Go-map lookup. -/
def lookupMap : List (Nat × Symbol) → Nat → Option Symbol
  | [], _ => none
  | p :: ps, k => if p.1 = k then some p.2 else lookupMap ps k

/-- One iteration of the `buildSymbolMap` loop: insert the symbol under its
parsed address, or skip it when the address field does not parse. -/
def symInsert (m : List (Nat × Symbol)) (sym : Symbol) : List (Nat × Symbol) :=
  match parseSymAddr sym.Address with
  | some addr => mapInsert m addr sym
  | none => m

/-- `(*ProfileData).buildSymbolMap`: insert every symbol whose address field
parses, in list order (so a later symbol overwrites an earlier one at the
same address); symbols whose address does not parse are skipped. -/
def buildSymbolMap (syms : List Symbol) : List (Nat × Symbol) :=
  syms.foldl symInsert []

/-- The predicate tested when reading the index backwards. -/
def symAt (addr : Nat) (s : Symbol) : Bool := parseSymAddr s.Address == some addr

/-- The profile's address → symbol index. -/
def ProfileData.symbolMap (pd : ProfileData) : List (Nat × Symbol) :=
  buildSymbolMap pd.Symbols

/-- `(*ProfileData).ResolveCallstack`: one resolved frame per raw address, in
order; a hit copies the symbol's fields, a miss produces the `?` module and a
bracketed hex placeholder function. -/
def ProfileData.ResolveCallstack (pd : ProfileData) (cs : Callstack) : List ResolvedFrame :=
  cs.Addresses.map fun addr =>
    match lookupMap pd.symbolMap addr with
    | some sym =>
      { Address := addr, Module := sym.ModuleName, Function := sym.ProcName,
        SourceFile := sym.FilePath, LineNumber := sym.LineNumber }
    | none =>
      { Address := addr, Module := "?", Function := "[0x" ++ toHexUpper addr ++ "]",
        SourceFile := "", LineNumber := 0 }

/-- `strings.SplitN(line, ": ", 2)` when the separator occurs: split at the
first occurrence of `": "`. `none` models the `len(parts) != 2` case. -/
def splitColonSpace : List Char → Option (List Char × List Char)
  | [] => none
  | ':' :: ' ' :: rest => some ([], rest)
  | c :: cs =>
    match splitColonSpace cs with
    | some p => some (c :: p.1, p.2)
    | none => none

/-- `parseStats`: key/value lines split on the first `": "`; lines without the
separator are skipped; unrecognized keys are ignored; a malformed `Samples`
value is a hard error. -/
def parseStatsLoop : List String → Stats → Except String Stats
  | [], st => .ok st
  | line :: rest, st =>
    match splitColonSpace line.toList with
    | none => parseStatsLoop rest st
    | some (k, v) =>
      let key := String.mk k
      let value := String.mk v
      if key = "Filename" then parseStatsLoop rest { st with Filename := value }
      else if key = "Duration" then parseStatsLoop rest { st with Duration := value }
      else if key = "Date" then parseStatsLoop rest { st with Date := value }
      else if key = "Samples" then
        match atoiGo value with
        | none => .error ("invalid Samples value: " ++ value)
        | some n => parseStatsLoop rest { st with NumSamples := n }
      else parseStatsLoop rest st

/-- The `parseSymbols` tokenizer: `"` toggles in-quote mode and is dropped; an
unquoted space ends the current field (consecutive unquoted spaces therefore
emit empty fields); every other rune is appended to the current field. The
last field is appended when the line ends. -/
def symFieldsAux : List Char → Bool → List Char → List (List Char)
  | [], _, cur => [cur]
  | c :: cs, inQuote, cur =>
    if c = '"' then symFieldsAux cs (!inQuote) cur
    else if c = ' ' ∧ ¬ inQuote then cur :: symFieldsAux cs inQuote []
    else symFieldsAux cs inQuote (cur ++ [c])

/-- The field list produced by the `parseSymbols` tokenizer for one line. -/
def symFields (line : String) : List String :=
  (symFieldsAux line.toList false []).map String.mk

/-- `parseSymbols`: skip blank lines; tokenize; fewer than five fields or a
non-integer fifth field is a hard error; fields beyond the fifth are ignored.
Appends to the accumulator exactly as Go appends through `*symbols`. -/
def parseSymbolsLoop : List String → List Symbol → Except String (List Symbol)
  | [], acc => .ok acc
  | line :: rest, acc =>
    if isBlank line then parseSymbolsLoop rest acc
    else
      match symFields line with
      | a :: b :: c :: d :: e :: _ =>
        match atoiGo e with
        | none => .error ("invalid line number in Symbols.txt (line: " ++ line ++ ")")
        | some n =>
          parseSymbolsLoop rest
            (acc ++ [{ Address := a, ModuleName := b, ProcName := c,
                       FilePath := d, LineNumber := n }])
      | _ => .error ("malformed line in Symbols.txt: " ++ line)

/-- Address fields of one `Callstacks.txt` line: each must carry the `0x`
prefix and a 64-bit hex payload; the first offender is a hard error. -/
def parseAddrList : List String → Except String (List Nat)
  | [] => .ok []
  | a :: rest =>
    match a.toList with
    | '0' :: 'x' :: payload =>
      match hexDigits payload with
      | none => .error ("invalid address " ++ a)
      | some n =>
        match parseAddrList rest with
        | .error e => .error e
        | .ok ns => .ok (n :: ns)
    | _ => .error ("invalid address format " ++ a ++ " (expected 0x prefix)")

/-- `parseCallstacks`: skip blank lines; split the trimmed line into
whitespace fields; field 0 is the floating-point duration, the rest are
addresses; each accepted line becomes one callstack whose `ThreadCounts`
holds the auto-incremented id (starting at 1) mapped to the duration. -/
def parseCallstacksLoop : List String → Nat → List Callstack → Except String (List Callstack)
  | [], _, acc => .ok acc
  | line :: rest, csId, acc =>
    let l := trimGo line
    if l = "" then parseCallstacksLoop rest csId acc
    else
      match goFields l with
      | [] => .error ("malformed Callstacks.txt line (no data): " ++ l)
      | p0 :: ps =>
        match parseFloatGo p0 with
        | none => .error ("invalid duration " ++ p0)
        | some d =>
          match parseAddrList ps with
          | .error e => .error e
          | .ok addrs =>
            parseCallstacksLoop rest (csId + 1)
              (acc ++ [{ Addresses := addrs, ThreadCounts := [((csId : Int), d)] }])

/-- `parseCallstacks` entry point (ids start at 1). -/
def parseCallstacks (lines : List String) : Except String (List Callstack) :=
  parseCallstacksLoop lines 1 []

/-- `parseThreads`: skip blank lines; alternate id/name lines starting with an
id; a non-integer id line is a hard error; a name line completes a thread.
A trailing id line with no name line is silently discarded at end of input. -/
def parseThreadsLoop : List String → Int → Bool → List Thread → Except String (List Thread)
  | [], _, _, acc => .ok acc
  | line :: rest, curId, isIDLine, acc =>
    if isBlank line then parseThreadsLoop rest curId isIDLine acc
    else if isIDLine then
      match atoiGo line with
      | none => .error ("invalid thread ID in Threads.txt: " ++ line)
      | some tid => parseThreadsLoop rest tid false acc
    else parseThreadsLoop rest curId true (acc ++ [{ ID := curId, Name := line }])

/-- `parseThreads` entry point (appends to the accumulator exactly as Go
appends through `*threads`). -/
def parseThreads (lines : List String) (acc : List Thread) : Except String (List Thread) :=
  parseThreadsLoop lines 0 true acc

/-- The pairing the thread parser implements, written over the stream's
non-blank lines: lines alternate id/name starting with an id; an id line that
fails integer parsing is a hard error; a name line completes a thread; a
trailing id line with no following name line is silently dropped, not an
error. -/
def threadPairs : List String → Except String (List Thread)
  | [] => .ok []
  | [id1] =>
    match atoiGo id1 with
    | none => .error ("invalid thread ID in Threads.txt: " ++ id1)
    | some _ => .ok []
  | id1 :: nm :: rest =>
    match atoiGo id1 with
    | none => .error ("invalid thread ID in Threads.txt: " ++ id1)
    | some tid =>
      match threadPairs rest with
      | .error e => .error e
      | .ok ths => .ok ({ ID := tid, Name := nm } :: ths)

/-- The section-name wrapping applied by `ReadSleepyProfile` to a
section-parser error (`fmt.Errorf("failed to parse %s: %w", ...)`). -/
def wrapSection (name e : String) : String := "failed to parse " ++ name ++ ": " ++ e

/-- The zero-valued `ProfileData` that `ReadSleepyProfile` starts from. -/
def initProfile : ProfileData :=
  { Stats := { Filename := "", Duration := "", Date := "", NumSamples := 0 },
    Symbols := [], Callstacks := [], Threads := [] }

/-- One iteration of the `ReadSleepyProfile` member loop: dispatch on the
member name; `Stats.txt` updates the stats in place, `Symbols.txt` and
`Threads.txt` append to the existing lists, `Callstacks.txt` replaces the
list, unrecognized members are ignored; every parser error is returned
wrapped with its section name. -/
def processMember (pd : ProfileData) (name : String) (lines : List String) :
    Except String ProfileData :=
  if name = "Stats.txt" then
    match parseStatsLoop lines pd.Stats with
    | .error e => .error (wrapSection "Stats.txt" e)
    | .ok st => .ok { pd with Stats := st }
  else if name = "Symbols.txt" then
    match parseSymbolsLoop lines pd.Symbols with
    | .error e => .error (wrapSection "Symbols.txt" e)
    | .ok syms => .ok { pd with Symbols := syms }
  else if name = "Callstacks.txt" then
    match parseCallstacks lines with
    | .error e => .error (wrapSection "Callstacks.txt" e)
    | .ok css => .ok { pd with Callstacks := css }
  else if name = "Threads.txt" then
    match parseThreads lines pd.Threads with
    | .error e => .error (wrapSection "Threads.txt" e)
    | .ok ths => .ok { pd with Threads := ths }
  else .ok pd

/-- The `ReadSleepyProfile` member loop over the archive's member list. -/
def loadLoop : List (String × List String) → ProfileData → Except String ProfileData
  | [], pd => .ok pd
  | (name, lines) :: rest, pd =>
    match processMember pd name lines with
    | .error e => .error e
    | .ok pd1 => loadLoop rest pd1

/-- `ReadSleepyProfile`, with the archive modelled as its ordered member list
(the zip-open step itself is file-system access outside the shallow
embedding); the symbol map is rebuilt in full afterwards, modelled by the
derived `ProfileData.symbolMap`. -/
def ReadSleepyProfile (files : List (String × List String)) : Except String ProfileData :=
  loadLoop files initProfile

end Sleepy

namespace Analyzer

open Sleepy

/-- The `%s!%s` signature used as the aggregation key everywhere. -/
def funcSig (m f : String) : String := m ++ "!" ++ f

/-- Signature of a resolved frame. -/
def frameSig (f : ResolvedFrame) : String := funcSig f.Module f.Function

/-- The one-pass insertion step of Go's unstable `sort.Slice`: place `x`
before the first element it strictly precedes.  Go's sort leaves ties in
unspecified order; the model fixes the stable order. -/
def insertDesc {α : Type} (gt : α → α → Bool) (x : α) : List α → List α
  | [] => [x]
  | y :: ys => if gt x y then x :: y :: ys else y :: insertDesc gt x ys

/-- Deterministic model of `sort.Slice` with a strict greater-than
comparator. -/
def sortDesc {α : Type} (gt : α → α → Bool) : List α → List α
  | [] => []
  | x :: xs => insertDesc gt x (sortDesc gt xs)

/-- `ProfileStatistics` (statistics.go). -/
structure ProfileStatistics where
  TotalTime : ℚ
  TotalCallstacks : Nat
  TotalSymbols : Nat
  AverageStackDepth : ℚ
  MaxStackDepth : Nat
  MinStackDepth : Nat
  UniqueModules : Nat
  UniqueFunctions : Nat
deriving DecidableEq, Repr

/-- The running state of the `ComputeStatistics` loop. -/
structure StatsAcc where
  totalTime : ℚ
  totalDepth : Nat
  maxDepth : Nat
  minDepth : Nat
  modSet : List String
  funcSet : List String
deriving DecidableEq, Repr

/-- Go `map[string]bool` used as a set: insert if absent. -/
def setInsert (l : List String) (s : String) : List String :=
  if s ∈ l then l else l ++ [s]

/-- Per-frame step of the `ComputeStatistics` loop: record the module (unless
empty or unresolved) and the `module!function` signature. -/
def statsFrameStep (acc : StatsAcc) (f : ResolvedFrame) : StatsAcc :=
  let acc1 :=
    if f.Module ≠ "" ∧ f.Module ≠ "?" then { acc with modSet := setInsert acc.modSet f.Module }
    else acc
  { acc1 with funcSet := setInsert acc1.funcSet (funcSig f.Module f.Function) }

/-- Per-callstack step of the `ComputeStatistics` loop. -/
def statsStackStep (pd : ProfileData) (acc : StatsAcc) (cs : Callstack) : StatsAcc :=
  let depth := cs.Addresses.length
  let acc1 :=
    { acc with
      totalTime := acc.totalTime + cs.GetDuration
      totalDepth := acc.totalDepth + depth
      maxDepth := if acc.maxDepth < depth then depth else acc.maxDepth
      minDepth := if depth < acc.minDepth then depth else acc.minDepth }
  (pd.ResolveCallstack cs).foldl statsFrameStep acc1

/-- `ComputeStatistics` (statistics.go): counts are set first, the zero-sample
case returns early (leaving every other field zero), the minimum depth is
initialized to `math.MaxInt32` and reset to 0 if never lowered. -/
def ComputeStatistics (pd : ProfileData) : ProfileStatistics :=
  let n := pd.Callstacks.length
  let nSyms := pd.Symbols.length
  if n = 0 then
    { TotalTime := 0, TotalCallstacks := 0, TotalSymbols := nSyms,
      AverageStackDepth := 0, MaxStackDepth := 0, MinStackDepth := 0,
      UniqueModules := 0, UniqueFunctions := 0 }
  else
    let acc := pd.Callstacks.foldl (statsStackStep pd)
      { totalTime := 0, totalDepth := 0, maxDepth := 0, minDepth := 2147483647,
        modSet := [], funcSet := [] }
    { TotalTime := acc.totalTime
      TotalCallstacks := n
      TotalSymbols := nSyms
      AverageStackDepth := (acc.totalDepth : ℚ) / (n : ℚ)
      MaxStackDepth := acc.maxDepth
      MinStackDepth := if acc.minDepth = 2147483647 then 0 else acc.minDepth
      UniqueModules := acc.modSet.length
      UniqueFunctions := acc.funcSet.length }

/-- `Hotspot` (hotspots.go). -/
structure Hotspot where
  Function : String
  Module : String
  SourceFile : String
  LineNumber : Int
  TotalTime : ℚ
  SampleCount : Nat
  Percentage : ℚ
  CallstackRefs : List Nat
deriving DecidableEq, Repr

/-- A fresh hotspot entry, as created on first sight of a signature. -/
def newHotspot (f : ResolvedFrame) : Hotspot :=
  { Function := f.Function, Module := f.Module, SourceFile := f.SourceFile,
    LineNumber := f.LineNumber, TotalTime := 0, SampleCount := 0,
    Percentage := 0, CallstackRefs := [] }

/-- The per-hit update: add the sample's duration, bump the sample count,
record the callstack index. -/
def bumpHotspot (h : Hotspot) (d : ℚ) (csIdx : Nat) : Hotspot :=
  { h with
    TotalTime := h.TotalTime + d
    SampleCount := h.SampleCount + 1
    CallstackRefs := h.CallstackRefs ++ [csIdx] }

/-- Go-map lookup in the hotspot map. -/
def hsFind : List (String × Hotspot) → String → Option Hotspot
  | [], _ => none
  | p :: ps, sig => if p.1 = sig then some p.2 else hsFind ps sig

/-- Go-map update in the hotspot map: create the entry if absent, then bump. -/
def hsUpdate : List (String × Hotspot) → String → ResolvedFrame → ℚ → Nat →
    List (String × Hotspot)
  | [], sig, f, d, idx => [(sig, bumpHotspot (newHotspot f) d idx)]
  | p :: ps, sig, f, d, idx =>
    if p.1 = sig then (p.1, bumpHotspot p.2 d idx) :: ps
    else p :: hsUpdate ps sig f d idx

/-- Inner frame loop of `FindHotspots`: skip signatures already seen in this
stack, otherwise mark them seen and bump their entry. -/
def hsFrames : List ResolvedFrame → List String → List (String × Hotspot) → ℚ → Nat →
    List (String × Hotspot)
  | [], _, m, _, _ => m
  | f :: fs, seen, m, d, idx =>
    let sig := frameSig f
    if sig ∈ seen then hsFrames fs seen m d idx
    else hsFrames fs (sig :: seen) (hsUpdate m sig f d idx) d idx

/-- Outer callstack loop of `FindHotspots`, carrying the running index. -/
def hsStacks (pd : ProfileData) : List Callstack → Nat → List (String × Hotspot) →
    List (String × Hotspot)
  | [], _, m => m
  | cs :: rest, idx, m =>
    hsStacks pd rest (idx + 1) (hsFrames (pd.ResolveCallstack cs) [] m cs.GetDuration idx)

/-- Sum of all sample durations (`totalProfileTime` accumulated by the loop). -/
def totalDur (pd : ProfileData) : ℚ := (pd.Callstacks.map Callstack.GetDuration).sum

/-- `FindHotspots` (hotspots.go): aggregate with per-stack dedup, fill in
percentages when the total time is positive, sort by total time descending,
truncate to `topN` when `0 < topN < len`. -/
def FindHotspots (pd : ProfileData) (topN : Int) : List Hotspot :=
  let m := hsStacks pd pd.Callstacks 0 []
  let total := totalDur pd
  let hotspots := m.map fun p =>
    if 0 < total then { p.2 with Percentage := p.2.TotalTime / total * 100 } else p.2
  let sorted := sortDesc (fun a b => decide (b.TotalTime < a.TotalTime)) hotspots
  if 0 < topN ∧ topN < (sorted.length : Int) then sorted.take topN.toNat else sorted

/-- `FunctionCallFrequency` (statistics.go). -/
structure FunctionCallFrequency where
  Function : String
  Module : String
  Count : Nat
  Percentage : ℚ
deriving DecidableEq, Repr

/-- A fresh frequency entry, as created on first sight of a signature. -/
def newFreq (f : ResolvedFrame) : FunctionCallFrequency :=
  { Function := f.Function, Module := f.Module, Count := 0, Percentage := 0 }

/-- Go-map lookup in the frequency map. -/
def fqFind : List (String × FunctionCallFrequency) → String → Option FunctionCallFrequency
  | [], _ => none
  | p :: ps, sig => if p.1 = sig then some p.2 else fqFind ps sig

/-- Go-map update in the frequency map: create the entry if absent, then
increment its count. -/
def fqUpdate : List (String × FunctionCallFrequency) → String → ResolvedFrame →
    List (String × FunctionCallFrequency)
  | [], sig, f => [(sig, { newFreq f with Count := 1 })]
  | p :: ps, sig, f =>
    if p.1 = sig then (p.1, { p.2 with Count := p.2.Count + 1 }) :: ps
    else p :: fqUpdate ps sig f

/-- Inner frame loop of `GetFunctionCallFrequencies` with the per-stack seen
set. -/
def fqFrames : List ResolvedFrame → List String → List (String × FunctionCallFrequency) →
    List (String × FunctionCallFrequency)
  | [], _, m => m
  | f :: fs, seen, m =>
    let sig := frameSig f
    if sig ∈ seen then fqFrames fs seen m
    else fqFrames fs (sig :: seen) (fqUpdate m sig f)

/-- Outer callstack loop of `GetFunctionCallFrequencies`. -/
def fqStacks (pd : ProfileData) : List Callstack → List (String × FunctionCallFrequency) →
    List (String × FunctionCallFrequency)
  | [], m => m
  | cs :: rest, m => fqStacks pd rest (fqFrames (pd.ResolveCallstack cs) [] m)

/-- `GetFunctionCallFrequencies` (statistics.go): count, per stack and with
per-stack dedup, in how many callstacks each signature appears; set the
percentage over the number of callstacks when it is positive; sort by count
descending. -/
def GetFunctionCallFrequencies (pd : ProfileData) : List FunctionCallFrequency :=
  let m := fqStacks pd pd.Callstacks []
  let totalStacks := pd.Callstacks.length
  let freqs := m.map fun p =>
    if 0 < totalStacks then
      { p.2 with Percentage := (p.2.Count : ℚ) / (totalStacks : ℚ) * 100 }
    else p.2
  sortDesc (fun a b => decide (b.Count < a.Count)) freqs

/-- `PerformanceIssue` (statistics.go). -/
structure PerformanceIssue where
  Severity : String
  Category : String
  Description : String
  Function : String
  Module : String
  Impact : ℚ
deriving DecidableEq, Repr

/-- The deep-call-stack description; the decimal rendering of the depth is
abstracted by `toString`. -/
def deepStackDescription (d : Nat) : String :=
  "Maximum stack depth of " ++ toString d ++
  " frames detected. This may indicate deep recursion or complex call chains."

/-- The CPU-hotspot description; `%.2f` float formatting is abstracted by the
exact rational rendering (no claim depends on the description text). -/
def cpuHotspotDescription (p : ℚ) : String :=
  "Function consumes " ++ toString p ++ "% of total execution time"

/-- The hot-loop description; `%.2f` float formatting is abstracted by the
exact rational rendering (no claim depends on the description text). -/
def hotLoopDescription (p : ℚ) : String :=
  "Function appears in " ++ toString p ++ "% of all callstacks - likely in a hot loop"

/-- The deep-call-stack rule of `DetectPerformanceIssues`: one High
"Deep Call Stack" issue when the maximum stack depth exceeds 50. -/
def deepStackIssues (pd : ProfileData) : List PerformanceIssue :=
  if 50 < (ComputeStatistics pd).MaxStackDepth then
    [{ Severity := "High", Category := "Deep Call Stack",
       Description := deepStackDescription (ComputeStatistics pd).MaxStackDepth,
       Function := "", Module := "", Impact := 0 }]
  else []

/-- The CPU-hotspot rule of `DetectPerformanceIssues`: for every top-10
hotspot, Critical above 20% and High above 10%. -/
def cpuHotspotIssues (pd : ProfileData) : List PerformanceIssue :=
  (FindHotspots pd 10).filterMap fun hs =>
    if 20 < hs.Percentage then
      some { Severity := "Critical", Category := "CPU Hotspot",
             Description := cpuHotspotDescription hs.Percentage,
             Function := hs.Function, Module := hs.Module, Impact := hs.Percentage }
    else if 10 < hs.Percentage then
      some { Severity := "High", Category := "CPU Hotspot",
             Description := cpuHotspotDescription hs.Percentage,
             Function := hs.Function, Module := hs.Module, Impact := hs.Percentage }
    else none

/-- The hot-loop rule of `DetectPerformanceIssues`: one Critical "Hot Loop"
issue for every frequency entry whose percentage strictly exceeds 80. -/
def hotLoopIssues (pd : ProfileData) : List PerformanceIssue :=
  ((GetFunctionCallFrequencies pd).filter fun fr => decide ((80 : ℚ) < fr.Percentage)).map
    fun fr =>
      { Severity := "Critical", Category := "Hot Loop",
        Description := hotLoopDescription fr.Percentage,
        Function := fr.Function, Module := fr.Module, Impact := fr.Percentage }

/-- `DetectPerformanceIssues` (statistics.go): the three independent rule
groups above, appended in program order and sorted by impact descending. -/
def DetectPerformanceIssues (pd : ProfileData) : List PerformanceIssue :=
  sortDesc (fun a b => decide (b.Impact < a.Impact))
    (deepStackIssues pd ++ cpuHotspotIssues pd ++ hotLoopIssues pd)

/-- The callstacks of a list in which a signature occurs at least once among
the resolved frames (used to state the per-sample dedup closed forms). -/
def stacksWith (pd : ProfileData) (sig : String) (css : List Callstack) : List Callstack :=
  css.filter fun cs => decide (sig ∈ (pd.ResolveCallstack cs).map frameSig)

/-- Total time of an optional hotspot entry (0 when absent). -/
def tmOf (o : Option Hotspot) : ℚ :=
  match o with
  | some h => h.TotalTime
  | none => 0

/-- Sample count of an optional hotspot entry (0 when absent). -/
def cntOf (o : Option Hotspot) : Nat :=
  match o with
  | some h => h.SampleCount
  | none => 0

/-- Count of an optional frequency entry (0 when absent). -/
def fcntOf (o : Option FunctionCallFrequency) : Nat :=
  match o with
  | some fr => fr.Count
  | none => 0

/-- The entry invariant of the frequency map: percentages are still unset and
every key is the `module!function` signature of its own entry. -/
def fqEntriesOk (m : List (String × FunctionCallFrequency)) : Prop :=
  ∀ p ∈ m, p.2.Percentage = 0 ∧ p.1 = funcSig p.2.Module p.2.Function

end Analyzer

namespace Examples

open Sleepy Analyzer

/-- One sample of duration 1 whose stack holds two different addresses that
both resolve to the same (module, function): recursion in one stack. -/
def exProfileRecursion : ProfileData :=
  { Stats := { Filename := "", Duration := "", Date := "", NumSamples := 1 },
    Symbols :=
      [ { Address := "0x1", ModuleName := "m", ProcName := "f", FilePath := "s", LineNumber := 10 },
        { Address := "0x2", ModuleName := "m", ProcName := "f", FilePath := "t", LineNumber := 20 } ],
    Callstacks := [{ Addresses := [1, 2], ThreadCounts := [(1, 1)] }],
    Threads := [] }

/-- One sample of duration 1 whose two addresses resolve to two distinct
(unresolved) functions. -/
def exProfileTwoFns : ProfileData :=
  { Stats := { Filename := "", Duration := "", Date := "", NumSamples := 1 },
    Symbols := [],
    Callstacks := [{ Addresses := [1, 2], ThreadCounts := [(1, 1)] }],
    Threads := [] }

/-- Zero samples but a nonempty symbol list. -/
def exProfileSymbolsOnly : ProfileData :=
  { Stats := { Filename := "", Duration := "", Date := "", NumSamples := 0 },
    Symbols :=
      [ { Address := "0x1", ModuleName := "m", ProcName := "f", FilePath := "s", LineNumber := 1 } ],
    Callstacks := [],
    Threads := [] }

/-- A symbol whose address field is valid hexadecimal text but lacks the
`0x` prefix, and a sample at the address it denotes (0x1000 = 4096). -/
def exProfileNoPrefix : ProfileData :=
  { Stats := { Filename := "", Duration := "", Date := "", NumSamples := 1 },
    Symbols :=
      [ { Address := "1000", ModuleName := "mod", ProcName := "fn", FilePath := "file", LineNumber := 7 } ],
    Callstacks := [{ Addresses := [4096], ThreadCounts := [(1, 1)] }],
    Threads := [] }

/-- A unit-duration single-address callstack. -/
def unitStack (addr : Nat) (id : Int) : Callstack :=
  { Addresses := [addr], ThreadCounts := [(id, 1)] }

/-- Five unit samples, four of which contain the function at address 1:
presence fraction exactly 80%. -/
def exProfileEighty : ProfileData :=
  { Stats := { Filename := "", Duration := "", Date := "", NumSamples := 5 },
    Symbols := [],
    Callstacks :=
      [unitStack 1 1, unitStack 1 2, unitStack 1 3, unitStack 1 4, unitStack 2 5],
    Threads := [] }

/-- Twenty unit samples, seventeen of which contain the function at
address 1: presence fraction exactly 85%. -/
def exProfileEightyFive : ProfileData :=
  { Stats := { Filename := "", Duration := "", Date := "", NumSamples := 20 },
    Symbols := [],
    Callstacks :=
      (List.range 17).map (fun i => unitStack 1 (i + 1)) ++
      [unitStack 2 18, unitStack 2 19, unitStack 2 20],
    Threads := [] }

/-- The single hotspot of `exProfileRecursion`. -/
def exHotspotRecursion : Hotspot :=
  { Function := "f", Module := "m", SourceFile := "s", LineNumber := 10,
    TotalTime := 1, SampleCount := 1, Percentage := 100, CallstackRefs := [0] }

/-- The frequency entry of the 80%-presence function of `exProfileEighty`. -/
def exFreqEighty : FunctionCallFrequency :=
  { Function := "[0x1]", Module := "?", Count := 4, Percentage := 80 }

end Examples


/-! ### Lemmas about the address index (`buildSymbolMap`) -/

namespace Sleepy

theorem lookupMap_mapInsert_self (m : List (Nat × Symbol)) (k : Nat) (v : Symbol) :
    lookupMap (mapInsert m k v) k = some v := by
  induction m with
  | nil => simp [mapInsert, lookupMap]
  | cons p ps ih =>
    by_cases h : p.1 = k
    · simp [mapInsert, h, lookupMap]
    · simp [mapInsert, h, lookupMap, ih]

theorem lookupMap_mapInsert_ne (m : List (Nat × Symbol)) (k k' : Nat) (v : Symbol)
    (h : k ≠ k') : lookupMap (mapInsert m k v) k' = lookupMap m k' := by
  induction m with
  | nil => simp [mapInsert, lookupMap, h]
  | cons p ps ih =>
    by_cases hp : p.1 = k
    · simp [mapInsert, hp, lookupMap, h]
    · by_cases hp' : p.1 = k'
      · simp [mapInsert, hp, lookupMap, hp', Ne.symm h]
      · simp [mapInsert, hp, lookupMap, hp', ih]

theorem mapInsert_keys (m : List (Nat × Symbol)) (k : Nat) (v : Symbol) :
    (mapInsert m k v).map Prod.fst =
      if k ∈ m.map Prod.fst then m.map Prod.fst else m.map Prod.fst ++ [k] := by
  induction m with
  | nil => simp [mapInsert]
  | cons p ps ih =>
    by_cases h : p.1 = k
    · simp [mapInsert, h]
    · have hne : k ≠ p.1 := fun hk => h hk.symm
      by_cases hk : k ∈ ps.map Prod.fst <;> simp [mapInsert, h, ih, hne, hk]

theorem mapInsert_keys_nodup (m : List (Nat × Symbol)) (k : Nat) (v : Symbol)
    (h : (m.map Prod.fst).Nodup) : ((mapInsert m k v).map Prod.fst).Nodup := by
  rw [mapInsert_keys]
  by_cases hk : k ∈ m.map Prod.fst
  · simpa [hk] using h
  · simp only [hk, if_false, List.nodup_append]
    refine ⟨h, List.nodup_singleton k, ?_⟩
    intro a ha hak
    rw [List.mem_singleton] at hak
    exact hk (hak ▸ ha)

theorem lookupMap_foldl_symInsert (syms : List Symbol) (m : List (Nat × Symbol)) (addr : Nat) :
    lookupMap (syms.foldl symInsert m) addr =
      (syms.reverse.find? (symAt addr)).or (lookupMap m addr) := by
  induction syms generalizing m with
  | nil => simp
  | cons s rest ih =>
    have hstep : lookupMap (symInsert m s) addr =
        if symAt addr s then some s else lookupMap m addr := by
      unfold symInsert symAt
      cases ha : parseSymAddr s.Address with
      | none => simp
      | some a =>
        by_cases hak : a = addr
        · subst hak; simp [lookupMap_mapInsert_self]
        · simp [lookupMap_mapInsert_ne _ _ _ _ hak, hak]
    rw [List.foldl_cons, ih, List.reverse_cons, List.find?_append]
    cases hfind : rest.reverse.find? (symAt addr) with
    | some x => simp [Option.or]
    | none =>
      by_cases hs : symAt addr s
      · simp [Option.or, List.find?, hs, hstep]
      · simp only [Bool.not_eq_true] at hs
        simp [Option.or, List.find?, hs, hstep]

theorem lookupMap_buildSymbolMap (syms : List Symbol) (addr : Nat) :
    lookupMap (buildSymbolMap syms) addr = syms.reverse.find? (symAt addr) := by
  rw [buildSymbolMap, lookupMap_foldl_symInsert]
  cases syms.reverse.find? (symAt addr) <;> simp [Option.or, lookupMap]

theorem buildSymbolMap_keys_nodup (syms : List Symbol) :
    ((buildSymbolMap syms).map Prod.fst).Nodup := by
  rw [buildSymbolMap]
  have h : ∀ (m : List (Nat × Symbol)), (m.map Prod.fst).Nodup →
      ((syms.foldl symInsert m).map Prod.fst).Nodup := by
    induction syms with
    | nil => intro m hm; simpa using hm
    | cons s rest ih =>
      intro m hm
      rw [List.foldl_cons]
      refine ih _ ?_
      unfold symInsert
      cases parseSymAddr s.Address with
      | none => exact hm
      | some a => exact mapInsert_keys_nodup _ _ _ hm

  exact h [] (by simp)

end Sleepy

namespace Sleepy

theorem parseSymAddr_some {a : String} {addr : Nat} (h : parseSymAddr a = some addr) :
    ∃ rest, a.toList = '0' :: 'x' :: rest ∧ hexDigits rest = some addr := by
  unfold parseSymAddr at h
  split at h
  · next rest heq => exact ⟨rest, heq, h⟩
  · exact absurd h (by simp)

end Sleepy

open Sleepy Analyzer Examples in
/-- C1: `ResolveCallstack` returns exactly one resolved frame per raw address,
in leaf-to-root order: the output length equals the input address count (so an
empty stack resolves to an empty sequence), and the frame at each position
copies the indexed symbol's module/function/source-file/line verbatim when the
address is in the index, and otherwise carries module `?`, the synthetic
`[0x…]` label embedding the address in hexadecimal, an empty source file and
line 0. -/
theorem resolveCallstack_one_frame_per_address (pd : ProfileData) (cs : Callstack) :
    (pd.ResolveCallstack cs).length = cs.Addresses.length ∧
    ∀ (i : Nat) (addr : Nat), cs.Addresses[i]? = some addr →
      (∀ sym, lookupMap pd.symbolMap addr = some sym →
        (pd.ResolveCallstack cs)[i]? =
          some ({ Address := addr, Module := sym.ModuleName, Function := sym.ProcName,
                  SourceFile := sym.FilePath, LineNumber := sym.LineNumber } : ResolvedFrame)) ∧
      (lookupMap pd.symbolMap addr = none →
        (pd.ResolveCallstack cs)[i]? =
          some ({ Address := addr, Module := "?",
                  Function := "[0x" ++ toHexUpper addr ++ "]",
                  SourceFile := "", LineNumber := 0 } : ResolvedFrame)) := by
  refine ⟨by simp [ProfileData.ResolveCallstack], ?_⟩
  intro i addr hi
  constructor
  · intro sym hsym
    simp [ProfileData.ResolveCallstack, List.getElem?_map, hi, hsym]
  · intro hnone
    simp [ProfileData.ResolveCallstack, List.getElem?_map, hi, hnone]

open Sleepy Analyzer Examples in
/-- Witness for C1 at a concrete profile: position 0 resolves through the
index, position 1 is out of the index and falls back to the placeholder. -/
theorem resolveCallstack_one_frame_per_address_witness :
    (exProfileRecursion.ResolveCallstack
        { Addresses := [1, 4096], ThreadCounts := [(1, 1)] })[0]? =
      some { Address := 1, Module := "m", Function := "f",
             SourceFile := "s", LineNumber := 10 } ∧
    (exProfileRecursion.ResolveCallstack
        { Addresses := [1, 4096], ThreadCounts := [(1, 1)] })[1]? =
      some { Address := 4096, Module := "?", Function := "[0x" ++ toHexUpper 4096 ++ "]",
             SourceFile := "", LineNumber := 0 } :=
  ⟨((resolveCallstack_one_frame_per_address exProfileRecursion
      { Addresses := [1, 4096], ThreadCounts := [(1, 1)] }).2 0 1 (by decide)).1
      { Address := "0x1", ModuleName := "m", ProcName := "f", FilePath := "s", LineNumber := 10 }
      (by decide),
   ((resolveCallstack_one_frame_per_address exProfileRecursion
      { Addresses := [1, 4096], ThreadCounts := [(1, 1)] }).2 1 4096 (by decide)).2
      (by decide)⟩

open Sleepy Analyzer Examples in
/-- C7: the address index maps each address to at most one symbol (its key
list has no duplicates), the entry found for an address is the last symbol in
parse order whose address field parses to that address (last-parsed wins on
collision, read here as the first hit over the reversed symbol list), and
symbols whose address field does not parse are skipped without error (the
index is a pure function of the symbol list, which itself is left intact):
at a concrete profile, the unparsable symbol stays in the raw list while the
index has no entry for the address its text denotes. -/
theorem symbolMap_at_most_one_entry_last_parsed_wins :
    (∀ syms : List Symbol,
      ((buildSymbolMap syms).map Prod.fst).Nodup ∧
      ∀ addr : Nat,
        lookupMap (buildSymbolMap syms) addr = syms.reverse.find? (symAt addr)) ∧
    ({ Address := "1000", ModuleName := "mod", ProcName := "fn", FilePath := "file",
       LineNumber := 7 } : Symbol) ∈ exProfileNoPrefix.Symbols ∧
    lookupMap exProfileNoPrefix.symbolMap 4096 = none :=
  ⟨fun syms => ⟨buildSymbolMap_keys_nodup syms, fun addr => lookupMap_buildSymbolMap syms addr⟩,
   by decide, by decide⟩

open Sleepy Analyzer Examples in
/-- C10: the address index contains exactly the symbols whose address field
starts with the literal `0x` and whose remainder parses as 64-bit hex: every
entry found in the index comes from such a symbol of the raw list, every such
symbol puts an entry at its address, and a symbol whose address is valid hex
text without the `0x` prefix is silently excluded — at a concrete profile its
address value resolves to the unresolved fallback frame instead. -/
theorem symbolMap_requires_hex_marker :
    (∀ (syms : List Symbol) (addr : Nat) (sym : Symbol),
      lookupMap (buildSymbolMap syms) addr = some sym →
        sym ∈ syms ∧
        ∃ rest, sym.Address.toList = '0' :: 'x' :: rest ∧ hexDigits rest = some addr) ∧
    (∀ (syms : List Symbol) (sym : Symbol) (addr : Nat),
      sym ∈ syms → parseSymAddr sym.Address = some addr →
        ∃ sym2, lookupMap (buildSymbolMap syms) addr = some sym2) ∧
    exProfileNoPrefix.ResolveCallstack
        { Addresses := [4096], ThreadCounts := [(1, 1)] } =
      [{ Address := 4096, Module := "?", Function := "[0x1000]",
         SourceFile := "", LineNumber := 0 }] := by
  refine ⟨?_, ?_, by decide⟩
  · intro syms addr sym h
    rw [lookupMap_buildSymbolMap] at h
    refine ⟨List.mem_reverse.mp (List.mem_of_find?_eq_some h), ?_⟩
    have hp := List.find?_some h
    rw [symAt, beq_iff_eq] at hp
    exact parseSymAddr_some hp
  · intro syms sym addr hmem hparse
    rw [lookupMap_buildSymbolMap]
    have : (syms.reverse.find? (symAt addr)).isSome = true := by
      rw [List.find?_isSome]
      exact ⟨sym, List.mem_reverse.mpr hmem, by rw [symAt, beq_iff_eq]; exact hparse⟩
    obtain ⟨sym2, h2⟩ := Option.isSome_iff_exists.mp this
    exact ⟨sym2, h2⟩

open Sleepy Analyzer Examples in
/-- Witness for C10 at a concrete profile: the entry found at address 2 comes
from a `0x`-prefixed symbol of the raw list, and the `0x`-prefixed symbol at
address 1 puts an entry in the index. -/
theorem symbolMap_requires_hex_marker_witness :
    (({ Address := "0x2", ModuleName := "m", ProcName := "f", FilePath := "t",
        LineNumber := 20 } : Symbol) ∈ exProfileRecursion.Symbols ∧
      ∃ rest, ("0x2" : String).toList = '0' :: 'x' :: rest ∧ hexDigits rest = some 2) ∧
    ∃ sym2, lookupMap (buildSymbolMap exProfileRecursion.Symbols) 1 = some sym2 :=
  ⟨symbolMap_requires_hex_marker.1 exProfileRecursion.Symbols 2
      { Address := "0x2", ModuleName := "m", ProcName := "f", FilePath := "t", LineNumber := 20 }
      (by decide),
   symbolMap_requires_hex_marker.2.1 exProfileRecursion.Symbols
      { Address := "0x1", ModuleName := "m", ProcName := "f", FilePath := "s", LineNumber := 10 }
      1 (by decide) (by decide)⟩

/-! ### Lemmas about `ReadSleepyProfile` error propagation -/

namespace Sleepy

theorem processMember_error_wrapped (pd : ProfileData) (name : String) (lines : List String)
    (e : String) (h : processMember pd name lines = Except.error e) :
    ∃ inner, e = wrapSection name inner := by
  unfold processMember at h
  split at h
  · next hname =>
    subst hname
    split at h
    · exact ⟨_, ((Except.error.injEq _ _).mp h).symm⟩
    · exact Except.noConfusion h
  · next =>
    split at h
    · next hname =>
      subst hname
      split at h
      · exact ⟨_, ((Except.error.injEq _ _).mp h).symm⟩
      · exact Except.noConfusion h
    · next =>
      split at h
      · next hname =>
        subst hname
        split at h
        · exact ⟨_, ((Except.error.injEq _ _).mp h).symm⟩
        · exact Except.noConfusion h
      · next =>
        split at h
        · next hname =>
          subst hname
          split at h
          · exact ⟨_, ((Except.error.injEq _ _).mp h).symm⟩
          · exact Except.noConfusion h
        · next => exact Except.noConfusion h

theorem loadLoop_atomic (files : List (String × List String)) :
    ∀ pd0 : ProfileData,
      (∃ pd, loadLoop files pd0 = Except.ok pd) ∨
      (∃ pre name lines rest pdPre inner,
        files = pre ++ (name, lines) :: rest ∧
        loadLoop pre pd0 = Except.ok pdPre ∧
        processMember pdPre name lines = Except.error (wrapSection name inner) ∧
        loadLoop files pd0 = Except.error (wrapSection name inner)) := by
  induction files with
  | nil => intro pd0; exact Or.inl ⟨pd0, rfl⟩
  | cons p rest ih =>
    intro pd0
    obtain ⟨name, lines⟩ := p
    cases hpm : processMember pd0 name lines with
    | error e =>
      obtain ⟨inner, hinner⟩ := processMember_error_wrapped _ _ _ _ hpm
      subst hinner
      exact Or.inr ⟨[], name, lines, rest, pd0, inner, rfl, rfl, hpm, by simp [loadLoop, hpm]⟩
    | ok pd1 =>
      rcases ih pd1 with ⟨pd, hok⟩ | ⟨pre, n2, l2, r2, pdPre, inner, hfiles, hpre, herr, hres⟩
      · exact Or.inl ⟨pd, by simp [loadLoop, hpm, hok]⟩
      · refine Or.inr ⟨(name, lines) :: pre, n2, l2, r2, pdPre, inner,
          by rw [hfiles, List.cons_append], ?_, herr, ?_⟩
        · simp [loadLoop, hpm, hpre]
        · simp [loadLoop, hpm, hres]

end Sleepy

open Sleepy Analyzer Examples in
/-- C4: profile construction is atomic. For every archive member list,
`ReadSleepyProfile` either returns a fully built profile, or — when some
section parser fails — returns the error of the first failing member (every
member before it processed successfully) wrapped with that member's section
name, and no profile at all (the error branch of `Except` carries nothing
else). -/
theorem readSleepyProfile_atomic :
    ∀ files : List (String × List String),
      (∃ pd, ReadSleepyProfile files = Except.ok pd) ∨
      (∃ pre name lines rest pdPre inner,
        files = pre ++ (name, lines) :: rest ∧
        loadLoop pre initProfile = Except.ok pdPre ∧
        processMember pdPre name lines = Except.error (wrapSection name inner) ∧
        ReadSleepyProfile files = Except.error (wrapSection name inner)) :=
  fun files => loadLoop_atomic files initProfile

/-! ### The thread parser as a pairing of its non-blank lines -/

namespace Sleepy

theorem parseThreadsLoop_eq_threadPairs (lines : List String) :
    ∀ (curId : Int) (acc : List Thread),
      parseThreadsLoop lines curId true acc =
        (threadPairs (lines.filter fun l => !isBlank l)).map (fun ths => acc ++ ths) ∧
      parseThreadsLoop lines curId false acc =
        match lines.filter (fun l => !isBlank l) with
        | [] => Except.ok acc
        | nm :: rest =>
          (threadPairs rest).map (fun ths => (acc ++ [{ ID := curId, Name := nm }]) ++ ths) := by
  induction lines with
  | nil => intro curId acc; simp [parseThreadsLoop, threadPairs, Except.map]
  | cons l rest ih =>
    intro curId acc
    by_cases hb : isBlank l = true
    · have hf : List.filter (fun x => !isBlank x) (l :: rest) =
          List.filter (fun x => !isBlank x) rest := by simp [hb]
      rw [hf]
      refine ⟨?_, ?_⟩
      · rw [show parseThreadsLoop (l :: rest) curId true acc =
              parseThreadsLoop rest curId true acc from by simp [parseThreadsLoop, hb]]
        exact (ih curId acc).1
      · rw [show parseThreadsLoop (l :: rest) curId false acc =
              parseThreadsLoop rest curId false acc from by simp [parseThreadsLoop, hb]]
        exact (ih curId acc).2
    · simp only [Bool.not_eq_true] at hb
      have hf : List.filter (fun x => !isBlank x) (l :: rest) =
          l :: List.filter (fun x => !isBlank x) rest := by simp [hb]
      rw [hf]
      refine ⟨?_, ?_⟩
      · cases ha : atoiGo l with
        | none =>
          cases hrest : rest.filter (fun x => !isBlank x) with
          | nil => simp [parseThreadsLoop, hb, ha, hrest, threadPairs, Except.map]
          | cons nm rest2 => simp [parseThreadsLoop, hb, ha, hrest, threadPairs, Except.map]
        | some tid =>
          have h2 := (ih tid acc).2
          cases hrest : rest.filter (fun x => !isBlank x) with
          | nil =>
            rw [hrest] at h2
            simp [parseThreadsLoop, hb, ha, threadPairs, Except.map, h2]
          | cons nm rest2 =>
            rw [hrest] at h2
            rw [show parseThreadsLoop (l :: rest) curId true acc =
                parseThreadsLoop rest tid false acc from by simp [parseThreadsLoop, hb, ha]]
            rw [h2]
            show _ = (threadPairs (l :: nm :: rest2)).map (fun ths => acc ++ ths)
            rw [show threadPairs (l :: nm :: rest2) =
                match threadPairs rest2 with
                | .error e => .error e
                | .ok ths => .ok ({ ID := tid, Name := nm } :: ths) from by
              simp [threadPairs, ha]]
            cases htp : threadPairs rest2 with
            | error e => simp [Except.map, htp]
            | ok ths => simp [Except.map, htp, List.append_assoc]
      · rw [show parseThreadsLoop (l :: rest) curId false acc =
            parseThreadsLoop rest curId true (acc ++ [{ ID := curId, Name := l }]) from by
          simp [parseThreadsLoop, hb]]
        exact (ih curId (acc ++ [{ ID := curId, Name := l }])).1

theorem parseThreads_eq_threadPairs (lines : List String) :
    parseThreads lines [] = threadPairs (lines.filter fun l => !isBlank l) := by
  rw [parseThreads, (parseThreadsLoop_eq_threadPairs lines 0 []).1]
  cases threadPairs (lines.filter fun l => !isBlank l) <;> simp [Except.map]

end Sleepy

open Sleepy Analyzer Examples in
/-- Counterexample to C5 as stated: an input of a single (odd count) id line
is not a hard parse error — the thread parser accepts it and silently drops
the dangling thread. -/
theorem parseThreads_odd_count_accepted : parseThreads ["1"] [] = Except.ok [] := by
  decide

open Sleepy Analyzer Examples in
/-- C5 as amended: the thread parser pairs the stream's non-blank lines as
alternating id/name pairs starting with an id; a non-numeric line at an id
position is a hard parse error, but an odd count of non-empty lines (a
trailing id line with no following name line) is NOT an error — the dangling
thread is silently dropped. Concretely, a non-numeric third line errors while
a numeric dangling third line parses to the first thread only. -/
theorem parseThreads_pairing :
    (∀ lines, parseThreads lines [] = threadPairs (lines.filter fun l => !isBlank l)) ∧
    parseThreads ["12", "main", "abc"] [] =
      Except.error "invalid thread ID in Threads.txt: abc" ∧
    parseThreads ["12", "main", "7"] [] = Except.ok [{ ID := 12, Name := "main" }] :=
  ⟨parseThreads_eq_threadPairs, by decide, by decide⟩

open Sleepy Analyzer Examples in
/-- Counterexample to C6 as stated: a profile with zero samples but a
nonempty symbol list does not get an all-zero statistics record — the total
symbol count is the (nonzero) length of the symbol list. -/
theorem computeStatistics_counts_symbols_when_empty :
    exProfileSymbolsOnly.Callstacks.length = 0 ∧
    (ComputeStatistics exProfileSymbolsOnly).TotalSymbols = 1 := by
  decide

open Sleepy Analyzer Examples in
/-- C6 as amended: on a profile with zero samples, `ComputeStatistics` returns
without error a record whose fields are all zero — total time, callstack
count, average/max/min stack depth (minimum reported as 0), unique module and
function counts — except that the total symbol count equals the length of the
profile's symbol list (so it is zero only when the symbol list is also
empty). -/
theorem computeStatistics_zero_samples (pd : ProfileData) (h : pd.Callstacks = []) :
    ComputeStatistics pd =
      { TotalTime := 0, TotalCallstacks := 0, TotalSymbols := pd.Symbols.length,
        AverageStackDepth := 0, MaxStackDepth := 0, MinStackDepth := 0,
        UniqueModules := 0, UniqueFunctions := 0 } := by
  simp [ComputeStatistics, h]

open Sleepy Analyzer Examples in
/-- Witness for the amended C6 at a concrete zero-sample profile. -/
theorem computeStatistics_zero_samples_witness :
    ComputeStatistics exProfileSymbolsOnly =
      { TotalTime := 0, TotalCallstacks := 0, TotalSymbols := exProfileSymbolsOnly.Symbols.length,
        AverageStackDepth := 0, MaxStackDepth := 0, MinStackDepth := 0,
        UniqueModules := 0, UniqueFunctions := 0 } :=
  computeStatistics_zero_samples exProfileSymbolsOnly (by decide)

/-! ### The symbol-line tokenizer -/

namespace Sleepy

theorem symFieldsAux_unquoted_space (a : List Char) :
    ∀ (b cur : List Char), (∀ c ∈ a, c ≠ ' ' ∧ c ≠ '"') →
      symFieldsAux (a ++ ' ' :: b) false cur = (cur ++ a) :: symFieldsAux b false [] := by
  induction a with
  | nil => intro b cur _; simp [symFieldsAux]
  | cons c a ih =>
    intro b cur h
    have hc := h c (List.mem_cons_self c a)
    have ha : ∀ x ∈ a, x ≠ ' ' ∧ x ≠ '"' := fun x hx => h x (List.mem_cons_of_mem c hx)
    simp only [List.cons_append, symFieldsAux, hc.1, hc.2, if_false, false_and, and_false,
      List.append_eq]
    rw [ih b (cur ++ [c]) ha]
    simp

end Sleepy

open Sleepy Analyzer Examples in
/-- C9: the symbol-line tokenizer treats exactly the single unquoted space
character as a field delimiter and does not collapse runs: outside quotes,
every space ends the current field, so each character run between two spaces
(possibly empty) becomes one field — two adjacent unquoted spaces emit an
empty field. Consequently a symbol line with doubled spacing still reaches
the five-field minimum with a shifted, empty module field and parses without
the malformed-line error. -/
theorem symbolTokenizer_single_space_no_collapse :
    (∀ (a : List Char) (b cur : List Char), (∀ c ∈ a, c ≠ ' ' ∧ c ≠ '"') →
      symFieldsAux (a ++ ' ' :: b) false cur = (cur ++ a) :: symFieldsAux b false []) ∧
    symFields "a  b" = ["a", "", "b"] ∧
    parseSymbolsLoop ["0x1000  mod fn 42"] [] =
      Except.ok [{ Address := "0x1000", ModuleName := "", ProcName := "mod",
                   FilePath := "fn", LineNumber := 42 }] :=
  ⟨symFieldsAux_unquoted_space, by decide, by decide⟩

open Sleepy Analyzer Examples in
/-- Witness for C9 at concrete input: a space directly after a one-character
field ends that field. -/
theorem symbolTokenizer_single_space_no_collapse_witness :
    symFieldsAux (['m'] ++ ' ' :: ['x']) false [] =
      (([] : List Char) ++ ['m']) :: symFieldsAux ['x'] false [] :=
  symbolTokenizer_single_space_no_collapse.1 ['m'] ['x'] [] (by decide)

/-! ### Closed form of the `FindHotspots` aggregation -/

namespace Analyzer

open Sleepy

theorem hsFind_hsUpdate_self (m : List (String × Hotspot)) (sig : String)
    (f : ResolvedFrame) (d : ℚ) (idx : Nat) :
    hsFind (hsUpdate m sig f d idx) sig =
      some (bumpHotspot ((hsFind m sig).getD (newHotspot f)) d idx) := by
  induction m with
  | nil => simp [hsUpdate, hsFind]
  | cons p ps ih =>
    by_cases h : p.1 = sig
    · simp [hsUpdate, h, hsFind]
    · simp [hsUpdate, h, hsFind, ih]

theorem hsFind_hsUpdate_ne (m : List (String × Hotspot)) (sig sig' : String)
    (f : ResolvedFrame) (d : ℚ) (idx : Nat) (h : sig' ≠ sig) :
    hsFind (hsUpdate m sig f d idx) sig' = hsFind m sig' := by
  induction m with
  | nil => simp [hsUpdate, hsFind, h, Ne.symm h]
  | cons p ps ih =>
    by_cases hp : p.1 = sig
    · simp [hsUpdate, hp, hsFind, Ne.symm h]
    · by_cases hp' : p.1 = sig'
      · simp [hsUpdate, hp, hsFind, hp', h]
      · simp [hsUpdate, hp, hsFind, hp', ih]

theorem tmOf_hsUpdate (m : List (String × Hotspot)) (sig : String)
    (f : ResolvedFrame) (d : ℚ) (idx : Nat) :
    tmOf (hsFind (hsUpdate m sig f d idx) sig) = tmOf (hsFind m sig) + d := by
  rw [hsFind_hsUpdate_self]
  cases h : hsFind m sig <;> simp [tmOf, bumpHotspot, newHotspot]

theorem cntOf_hsUpdate (m : List (String × Hotspot)) (sig : String)
    (f : ResolvedFrame) (d : ℚ) (idx : Nat) :
    cntOf (hsFind (hsUpdate m sig f d idx) sig) = cntOf (hsFind m sig) + 1 := by
  rw [hsFind_hsUpdate_self]
  cases h : hsFind m sig <;> simp [cntOf, bumpHotspot, newHotspot]

theorem hsFrames_tm_cnt (fs : List ResolvedFrame) :
    ∀ (seen : List String) (m : List (String × Hotspot)) (d : ℚ) (idx : Nat) (sig : String),
      (tmOf (hsFind (hsFrames fs seen m d idx) sig) =
        if sig ∉ seen ∧ sig ∈ fs.map frameSig then tmOf (hsFind m sig) + d
        else tmOf (hsFind m sig)) ∧
      (cntOf (hsFind (hsFrames fs seen m d idx) sig) =
        if sig ∉ seen ∧ sig ∈ fs.map frameSig then cntOf (hsFind m sig) + 1
        else cntOf (hsFind m sig)) := by
  induction fs with
  | nil => intro seen m d idx sig; simp [hsFrames]
  | cons f fs ih =>
    intro seen m d idx sig
    by_cases hseen : frameSig f ∈ seen
    · simp only [hsFrames, hseen, if_true]
      obtain ⟨h1, h2⟩ := ih seen m d idx sig
      by_cases hs : sig ∈ seen
      · simp [hs] at h1 h2 ⊢
        exact ⟨h1, h2⟩
      · have hne : sig ≠ frameSig f := fun he => hs (he ▸ hseen)
        rw [h1, h2]
        simp [List.mem_cons, hne, hs]
    · simp only [hsFrames, hseen, if_false]
      obtain ⟨h1, h2⟩ := ih (frameSig f :: seen) (hsUpdate m (frameSig f) f d idx) d idx sig
      by_cases heq : sig = frameSig f
      · subst heq
        rw [h1, h2]
        simp [hseen, tmOf_hsUpdate, cntOf_hsUpdate]
      · rw [h1, h2, hsFind_hsUpdate_ne _ _ _ _ _ _ heq]
        simp [List.mem_cons, heq]

theorem hsStacks_tm_cnt (pd : ProfileData) (css : List Callstack) :
    ∀ (idx : Nat) (m : List (String × Hotspot)) (sig : String),
      tmOf (hsFind (hsStacks pd css idx m) sig) =
        tmOf (hsFind m sig) + ((stacksWith pd sig css).map Callstack.GetDuration).sum ∧
      cntOf (hsFind (hsStacks pd css idx m) sig) =
        cntOf (hsFind m sig) + (stacksWith pd sig css).length := by
  induction css with
  | nil => intro idx m sig; simp [hsStacks, stacksWith]
  | cons cs rest ih =>
    intro idx m sig
    rw [show hsStacks pd (cs :: rest) idx m =
        hsStacks pd rest (idx + 1)
          (hsFrames (pd.ResolveCallstack cs) [] m cs.GetDuration idx) from rfl]
    obtain ⟨hin1, hin2⟩ :=
      hsFrames_tm_cnt (pd.ResolveCallstack cs) [] m cs.GetDuration idx sig
    obtain ⟨ht, hc⟩ :=
      ih (idx + 1) (hsFrames (pd.ResolveCallstack cs) [] m cs.GetDuration idx) sig
    simp only [List.not_mem_nil, not_false_iff, true_and] at hin1 hin2
    by_cases hmem : sig ∈ (pd.ResolveCallstack cs).map frameSig
    · have hsw : stacksWith pd sig (cs :: rest) = cs :: stacksWith pd sig rest := by
        simp only [stacksWith, List.filter_cons, decide_eq_true_eq, hmem, if_true]
      rw [ht, hc, hin1, hin2, hsw, if_pos hmem, if_pos hmem]
      refine ⟨?_, ?_⟩
      · rw [List.map_cons, List.sum_cons]; ring
      · rw [List.length_cons]; omega
    · have hsw : stacksWith pd sig (cs :: rest) = stacksWith pd sig rest := by
        simp only [stacksWith, List.filter_cons, decide_eq_true_eq, hmem, if_false]
      rw [ht, hc, hin1, hin2, hsw, if_neg hmem, if_neg hmem]
      exact ⟨rfl, rfl⟩

end Analyzer

open Sleepy Analyzer Examples in
/-- C2: `FindHotspots` deduplicates resolved frames by (module, function)
signature within each single sample: the aggregated entry of a signature has
total time equal to the sum of the durations of the callstacks that contain
the signature at least once — each such callstack contributing exactly once,
whatever the signature's multiplicity inside it — and sample count equal to
the number of such callstacks. In particular, a profile with one sample of
duration 1 whose stack holds two different addresses resolving to the same
(module, function) yields total time 1 and sample count 1 for it. -/
theorem findHotspots_dedup_within_sample :
    (∀ (pd : ProfileData) (sig : String),
      tmOf (hsFind (hsStacks pd pd.Callstacks 0 []) sig) =
        ((stacksWith pd sig pd.Callstacks).map Callstack.GetDuration).sum ∧
      cntOf (hsFind (hsStacks pd pd.Callstacks 0 []) sig) =
        (stacksWith pd sig pd.Callstacks).length) ∧
    (FindHotspots exProfileRecursion 10).map (fun h => (h.TotalTime, h.SampleCount)) =
      [((1 : ℚ), 1)] := by
  refine ⟨fun pd sig => ?_, by decide⟩
  obtain ⟨h1, h2⟩ := hsStacks_tm_cnt pd pd.Callstacks 0 [] sig
  rw [h1, h2]
  simp [hsFind, tmOf, cntOf]

/-! ### Entry invariants of the hotspot map, and sort membership -/

namespace Analyzer

open Sleepy

theorem mem_insertDesc {α : Type} (gt : α → α → Bool) (x a : α) (l : List α) :
    a ∈ insertDesc gt x l ↔ a = x ∨ a ∈ l := by
  induction l with
  | nil => simp [insertDesc]
  | cons y ys ih =>
    by_cases h : gt x y
    · simp [insertDesc, h]
    · rw [show insertDesc gt x (y :: ys) = y :: insertDesc gt x ys from by
        simp [insertDesc, h]]
      rw [List.mem_cons, ih, List.mem_cons]
      tauto

theorem insertDesc_perm {α : Type} (gt : α → α → Bool) (x : α) (l : List α) :
    (insertDesc gt x l).Perm (x :: l) := by
  induction l with
  | nil => simp [insertDesc]
  | cons y ys ih =>
    by_cases h : gt x y
    · simp [insertDesc, h]
    · simp only [insertDesc, h, if_false]
      exact ((ih.cons y).trans (List.Perm.swap x y ys))

theorem sortDesc_perm {α : Type} (gt : α → α → Bool) (l : List α) :
    (sortDesc gt l).Perm l := by
  induction l with
  | nil => simp [sortDesc]
  | cons x xs ih => exact (insertDesc_perm gt x (sortDesc gt xs)).trans (ih.cons x)

theorem mem_ite_take {α : Type} (c : Prop) [Decidable c] (n : Nat) (l : List α) (a : α)
    (h : a ∈ if c then l.take n else l) : a ∈ l := by
  split at h
  · exact List.Sublist.mem h (List.take_sublist _ _)
  · exact h

theorem hsUpdate_keys (m : List (String × Hotspot)) (sig : String) (f : ResolvedFrame)
    (d : ℚ) (idx : Nat) :
    (hsUpdate m sig f d idx).map Prod.fst =
      if sig ∈ m.map Prod.fst then m.map Prod.fst else m.map Prod.fst ++ [sig] := by
  induction m with
  | nil => simp [hsUpdate]
  | cons p ps ih =>
    by_cases h : p.1 = sig
    · simp [hsUpdate, h]
    · have hne : sig ≠ p.1 := fun hk => h hk.symm
      by_cases hk : sig ∈ ps.map Prod.fst <;> simp [hsUpdate, h, ih, hne, hk]

theorem hsUpdate_keys_nodup (m : List (String × Hotspot)) (sig : String) (f : ResolvedFrame)
    (d : ℚ) (idx : Nat) (h : (m.map Prod.fst).Nodup) :
    ((hsUpdate m sig f d idx).map Prod.fst).Nodup := by
  rw [hsUpdate_keys]
  by_cases hk : sig ∈ m.map Prod.fst
  · simpa [hk] using h
  · simp only [hk, if_false, List.nodup_append]
    refine ⟨h, List.nodup_singleton sig, ?_⟩
    intro a ha hak
    rw [List.mem_singleton] at hak
    exact hk (hak ▸ ha)

theorem hsUpdate_pct (m : List (String × Hotspot)) (sig : String) (f : ResolvedFrame)
    (d : ℚ) (idx : Nat) (h : ∀ p ∈ m, p.2.Percentage = 0) :
    ∀ p ∈ hsUpdate m sig f d idx, p.2.Percentage = 0 := by
  induction m with
  | nil =>
    intro p hp
    simp only [hsUpdate, List.mem_singleton] at hp
    subst hp
    simp [bumpHotspot, newHotspot]
  | cons q qs ih =>
    intro p hp
    by_cases hq : q.1 = sig
    · simp only [hsUpdate, hq, if_true, List.mem_cons] at hp
      rcases hp with hp | hp
      · subst hp
        simp [bumpHotspot, h q (List.mem_cons_self q qs)]
      · exact h p (List.mem_cons_of_mem q hp)
    · simp only [hsUpdate, hq, if_false, List.mem_cons] at hp
      rcases hp with hp | hp
      · subst hp; exact h p (List.mem_cons_self p qs)
      · exact ih (fun r hr => h r (List.mem_cons_of_mem q hr)) p hp

theorem hsFrames_inv (fs : List ResolvedFrame) :
    ∀ (seen : List String) (m : List (String × Hotspot)) (d : ℚ) (idx : Nat),
      (m.map Prod.fst).Nodup → (∀ p ∈ m, p.2.Percentage = 0) →
      ((hsFrames fs seen m d idx).map Prod.fst).Nodup ∧
      ∀ p ∈ hsFrames fs seen m d idx, p.2.Percentage = 0 := by
  induction fs with
  | nil => intro seen m d idx h1 h2; exact ⟨h1, h2⟩
  | cons f fs ih =>
    intro seen m d idx h1 h2
    by_cases hseen : frameSig f ∈ seen
    · simp only [hsFrames, hseen, if_true]
      exact ih seen m d idx h1 h2
    · simp only [hsFrames, hseen, if_false]
      exact ih _ _ d idx (hsUpdate_keys_nodup _ _ _ _ _ h1) (hsUpdate_pct _ _ _ _ _ h2)

theorem hsStacks_inv (pd : ProfileData) (css : List Callstack) :
    ∀ (idx : Nat) (m : List (String × Hotspot)),
      (m.map Prod.fst).Nodup → (∀ p ∈ m, p.2.Percentage = 0) →
      ((hsStacks pd css idx m).map Prod.fst).Nodup ∧
      ∀ p ∈ hsStacks pd css idx m, p.2.Percentage = 0 := by
  induction css with
  | nil => intro idx m h1 h2; exact ⟨h1, h2⟩
  | cons cs rest ih =>
    intro idx m h1 h2
    obtain ⟨g1, g2⟩ := hsFrames_inv (pd.ResolveCallstack cs) [] m cs.GetDuration idx h1 h2
    exact ih (idx + 1) _ g1 g2

theorem hsFind_of_mem (m : List (String × Hotspot)) (hnd : (m.map Prod.fst).Nodup) :
    ∀ p ∈ m, hsFind m p.1 = some p.2 := by
  induction m with
  | nil => intro p hp; exact absurd hp (List.not_mem_nil p)
  | cons q qs ih =>
    intro p hp
    rcases List.mem_cons.mp hp with hp | hp
    · subst hp; simp [hsFind]
    · have hq : q.1 ≠ p.1 := by
        intro he
        have : q.1 ∈ qs.map Prod.fst := he ▸ List.mem_map_of_mem Prod.fst hp
        exact (List.nodup_cons.mp (by simpa using hnd)).1 this
      simp only [hsFind, hq, if_false]
      exact ih (List.nodup_cons.mp (by simpa using hnd)).2 p hp

theorem stacksWith_dur_nonneg (pd : ProfileData) (sig : String) (css : List Callstack)
    (h : ∀ cs ∈ css, 0 ≤ cs.GetDuration) :
    0 ≤ ((stacksWith pd sig css).map Callstack.GetDuration).sum := by
  induction css with
  | nil => simp [stacksWith]
  | cons cs rest ih =>
    have hrest := ih fun x hx => h x (List.mem_cons_of_mem cs hx)
    by_cases hmem : sig ∈ (pd.ResolveCallstack cs).map frameSig
    · have hsw : stacksWith pd sig (cs :: rest) = cs :: stacksWith pd sig rest := by
        simp only [stacksWith, List.filter_cons, decide_eq_true_eq, hmem, if_true]
      rw [hsw, List.map_cons, List.sum_cons]
      exact add_nonneg (h cs (List.mem_cons_self cs rest)) hrest
    · have hsw : stacksWith pd sig (cs :: rest) = stacksWith pd sig rest := by
        simp only [stacksWith, List.filter_cons, decide_eq_true_eq, hmem, if_false]
      rw [hsw]
      exact hrest

theorem stacksWith_dur_le (pd : ProfileData) (sig : String) (css : List Callstack)
    (h : ∀ cs ∈ css, 0 ≤ cs.GetDuration) :
    ((stacksWith pd sig css).map Callstack.GetDuration).sum ≤
      (css.map Callstack.GetDuration).sum := by
  induction css with
  | nil => simp [stacksWith]
  | cons cs rest ih =>
    have hrest := ih fun x hx => h x (List.mem_cons_of_mem cs hx)
    rw [List.map_cons, List.sum_cons]
    by_cases hmem : sig ∈ (pd.ResolveCallstack cs).map frameSig
    · have hsw : stacksWith pd sig (cs :: rest) = cs :: stacksWith pd sig rest := by
        simp only [stacksWith, List.filter_cons, decide_eq_true_eq, hmem, if_true]
      rw [hsw, List.map_cons, List.sum_cons]
      exact add_le_add_left hrest _
    · have hsw : stacksWith pd sig (cs :: rest) = stacksWith pd sig rest := by
        simp only [stacksWith, List.filter_cons, decide_eq_true_eq, hmem, if_false]
      rw [hsw]
      exact le_add_of_nonneg_of_le (h cs (List.mem_cons_self cs rest)) hrest

end Analyzer

open Sleepy Analyzer Examples in
/-- Counterexample to C3 as stated: a non-empty profile (one sample, total
duration 1 > 0) whose single stack resolves to two distinct functions gives
each of them 100%, so the percentages returned by `FindHotspots` sum to 200,
not at most 100. -/
theorem findHotspots_percentage_sum_exceeds_100 :
    0 < totalDur exProfileTwoFns ∧
    exProfileTwoFns.Callstacks.length = 1 ∧
    ((FindHotspots exProfileTwoFns 10).map Hotspot.Percentage).sum = 200 ∧
    ¬ ((FindHotspots exProfileTwoFns 10).map Hotspot.Percentage).sum ≤ 100 := by
  decide

open Sleepy Analyzer Examples in
/-- C3 as amended: each hotspot returned by `FindHotspots` carries the
percentage its accumulated total time bears to the sum of all sample
durations times 100 when that sum is positive, and 0 otherwise; when every
sample duration is nonnegative each individual percentage lies between 0 and
100 — but the percentages of distinct functions may sum to more than 100,
because every distinct function of a sample receives that sample's full
duration. -/
theorem findHotspots_percentage_bounds :
    ∀ (pd : ProfileData) (topN : Int) (h : Hotspot), h ∈ FindHotspots pd topN →
      ((0 < totalDur pd → h.Percentage = h.TotalTime / totalDur pd * 100) ∧
       (¬ 0 < totalDur pd → h.Percentage = 0)) ∧
      ((∀ cs ∈ pd.Callstacks, 0 ≤ cs.GetDuration) →
        0 ≤ h.Percentage ∧ h.Percentage ≤ 100) := by
  intro pd topN h hmem
  simp only [FindHotspots] at hmem
  have hmem2 : h ∈ sortDesc (fun a b => decide (b.TotalTime < a.TotalTime))
      ((hsStacks pd pd.Callstacks 0 []).map fun p =>
        if 0 < totalDur pd then { p.2 with Percentage := p.2.TotalTime / totalDur pd * 100 }
        else p.2) := mem_ite_take _ _ _ _ hmem
  have hmem3 := (sortDesc_perm _ _).mem_iff.mp hmem2
  obtain ⟨p, hp, hgp⟩ := List.mem_map.mp hmem3
  have hinv := hsStacks_inv pd pd.Callstacks 0 [] (by simp) (by simp)
  have hfind := hsFind_of_mem _ hinv.1 p hp
  have htm : p.2.TotalTime = ((stacksWith pd p.1 pd.Callstacks).map Callstack.GetDuration).sum := by
    have hcf := (hsStacks_tm_cnt pd pd.Callstacks 0 [] p.1).1
    rw [hfind] at hcf
    simpa [tmOf, hsFind] using hcf
  have hpct0 : p.2.Percentage = 0 := hinv.2 p hp
  by_cases htot : 0 < totalDur pd
  · have hh : h = { p.2 with Percentage := p.2.TotalTime / totalDur pd * 100 } := by
      rw [← hgp]; simp [htot]
    refine ⟨⟨fun _ => by rw [hh], fun hn => absurd htot hn⟩, fun hd => ?_⟩
    have h0 : 0 ≤ p.2.TotalTime := htm ▸ stacksWith_dur_nonneg pd p.1 pd.Callstacks hd
    have hle : p.2.TotalTime ≤ totalDur pd := htm ▸ stacksWith_dur_le pd p.1 pd.Callstacks hd
    have hdiv : p.2.TotalTime / totalDur pd ≤ 1 := (div_le_one htot).mpr hle
    constructor
    · rw [hh]
      exact mul_nonneg (div_nonneg h0 (le_of_lt htot)) (by norm_num)
    · rw [hh]
      calc p.2.TotalTime / totalDur pd * 100 ≤ 1 * 100 :=
            mul_le_mul_of_nonneg_right hdiv (by norm_num)
        _ = 100 := one_mul 100
  · have hh : h = p.2 := by rw [← hgp]; simp [htot]
    refine ⟨⟨fun ht => absurd ht htot, fun _ => by rw [hh]; exact hpct0⟩, fun _ => ?_⟩
    rw [hh, hpct0]
    norm_num

open Sleepy Analyzer Examples in
/-- Witness for the amended C3 at a concrete profile and hotspot. -/
theorem findHotspots_percentage_bounds_witness :
    exHotspotRecursion.Percentage =
      exHotspotRecursion.TotalTime / totalDur exProfileRecursion * 100 ∧
    0 ≤ exHotspotRecursion.Percentage ∧ exHotspotRecursion.Percentage ≤ 100 :=
  ⟨(findHotspots_percentage_bounds exProfileRecursion 10 exHotspotRecursion
      (by decide)).1.1 (by decide),
   (findHotspots_percentage_bounds exProfileRecursion 10 exHotspotRecursion
      (by decide)).2 (by decide)⟩

/-! ### Closed form of the frequency aggregation and the hot-loop rule -/

namespace Analyzer

open Sleepy

theorem fqFind_fqUpdate_self (m : List (String × FunctionCallFrequency)) (sig : String)
    (f : ResolvedFrame) :
    fqFind (fqUpdate m sig f) sig =
      some (let base := (fqFind m sig).getD (newFreq f)
            { base with Count := base.Count + 1 }) := by
  induction m with
  | nil => simp [fqUpdate, fqFind, newFreq]
  | cons p ps ih =>
    by_cases h : p.1 = sig
    · simp [fqUpdate, h, fqFind]
    · simp [fqUpdate, h, fqFind, ih]

theorem fqFind_fqUpdate_ne (m : List (String × FunctionCallFrequency)) (sig sig' : String)
    (f : ResolvedFrame) (h : sig' ≠ sig) :
    fqFind (fqUpdate m sig f) sig' = fqFind m sig' := by
  induction m with
  | nil => simp [fqUpdate, fqFind, h, Ne.symm h]
  | cons p ps ih =>
    by_cases hp : p.1 = sig
    · simp [fqUpdate, hp, fqFind, Ne.symm h]
    · by_cases hp' : p.1 = sig'
      · simp [fqUpdate, hp, fqFind, hp', h]
      · simp [fqUpdate, hp, fqFind, hp', ih]

theorem fcntOf_fqUpdate (m : List (String × FunctionCallFrequency)) (sig : String)
    (f : ResolvedFrame) :
    fcntOf (fqFind (fqUpdate m sig f) sig) = fcntOf (fqFind m sig) + 1 := by
  rw [fqFind_fqUpdate_self]
  cases h : fqFind m sig <;> simp [fcntOf, newFreq]

theorem fqFrames_cnt (fs : List ResolvedFrame) :
    ∀ (seen : List String) (m : List (String × FunctionCallFrequency)) (sig : String),
      fcntOf (fqFind (fqFrames fs seen m) sig) =
        if sig ∉ seen ∧ sig ∈ fs.map frameSig then fcntOf (fqFind m sig) + 1
        else fcntOf (fqFind m sig) := by
  induction fs with
  | nil => intro seen m sig; simp [fqFrames]
  | cons f fs ih =>
    intro seen m sig
    by_cases hseen : frameSig f ∈ seen
    · simp only [fqFrames, hseen, if_true]
      have h1 := ih seen m sig
      by_cases hs : sig ∈ seen
      · simp [hs] at h1 ⊢
        exact h1
      · have hne : sig ≠ frameSig f := fun he => hs (he ▸ hseen)
        rw [h1]
        simp [List.mem_cons, hne, hs]
    · simp only [fqFrames, hseen, if_false]
      have h1 := ih (frameSig f :: seen) (fqUpdate m (frameSig f) f) sig
      by_cases heq : sig = frameSig f
      · subst heq
        rw [h1]
        simp [hseen, fcntOf_fqUpdate]
      · rw [h1, fqFind_fqUpdate_ne _ _ _ _ heq]
        simp [List.mem_cons, heq]

theorem fqStacks_cnt (pd : ProfileData) (css : List Callstack) :
    ∀ (m : List (String × FunctionCallFrequency)) (sig : String),
      fcntOf (fqFind (fqStacks pd css m) sig) =
        fcntOf (fqFind m sig) + (stacksWith pd sig css).length := by
  induction css with
  | nil => intro m sig; simp [fqStacks, stacksWith]
  | cons cs rest ih =>
    intro m sig
    rw [show fqStacks pd (cs :: rest) m =
        fqStacks pd rest (fqFrames (pd.ResolveCallstack cs) [] m) from rfl]
    have hin := fqFrames_cnt (pd.ResolveCallstack cs) [] m sig
    have ht := ih (fqFrames (pd.ResolveCallstack cs) [] m) sig
    simp only [List.not_mem_nil, not_false_iff, true_and] at hin
    by_cases hmem : sig ∈ (pd.ResolveCallstack cs).map frameSig
    · have hsw : stacksWith pd sig (cs :: rest) = cs :: stacksWith pd sig rest := by
        simp only [stacksWith, List.filter_cons, decide_eq_true_eq, hmem, if_true]
      rw [ht, hin, hsw, if_pos hmem, List.length_cons]
      omega
    · have hsw : stacksWith pd sig (cs :: rest) = stacksWith pd sig rest := by
        simp only [stacksWith, List.filter_cons, decide_eq_true_eq, hmem, if_false]
      rw [ht, hin, hsw, if_neg hmem]

theorem fqUpdate_keys (m : List (String × FunctionCallFrequency)) (sig : String)
    (f : ResolvedFrame) :
    (fqUpdate m sig f).map Prod.fst =
      if sig ∈ m.map Prod.fst then m.map Prod.fst else m.map Prod.fst ++ [sig] := by
  induction m with
  | nil => simp [fqUpdate]
  | cons p ps ih =>
    by_cases h : p.1 = sig
    · simp [fqUpdate, h]
    · have hne : sig ≠ p.1 := fun hk => h hk.symm
      by_cases hk : sig ∈ ps.map Prod.fst <;> simp [fqUpdate, h, ih, hne, hk]

theorem fqUpdate_keys_nodup (m : List (String × FunctionCallFrequency)) (sig : String)
    (f : ResolvedFrame) (h : (m.map Prod.fst).Nodup) :
    ((fqUpdate m sig f).map Prod.fst).Nodup := by
  rw [fqUpdate_keys]
  by_cases hk : sig ∈ m.map Prod.fst
  · simpa [hk] using h
  · simp only [hk, if_false, List.nodup_append]
    refine ⟨h, List.nodup_singleton sig, ?_⟩
    intro a ha hak
    rw [List.mem_singleton] at hak
    exact hk (hak ▸ ha)

theorem fqUpdate_entries (m : List (String × FunctionCallFrequency)) (f : ResolvedFrame)
    (h : fqEntriesOk m) : fqEntriesOk (fqUpdate m (frameSig f) f) := by
  induction m with
  | nil =>
    intro p hp
    simp only [fqUpdate, List.mem_singleton] at hp
    subst hp
    simp [newFreq, frameSig]
  | cons q qs ih =>
    intro p hp
    by_cases hq : q.1 = frameSig f
    · simp only [fqUpdate, hq, if_true, List.mem_cons] at hp
      rcases hp with hp | hp
      · subst hp
        obtain ⟨h1, h2⟩ := h q (List.mem_cons_self q qs)
        exact ⟨h1, hq.symm.trans h2⟩
      · exact h p (List.mem_cons_of_mem q hp)
    · simp only [fqUpdate, hq, if_false, List.mem_cons] at hp
      rcases hp with hp | hp
      · subst hp; exact h p (List.mem_cons_self p qs)
      · exact ih (fun r hr => h r (List.mem_cons_of_mem q hr)) p hp

theorem fqFrames_entries (fs : List ResolvedFrame) :
    ∀ (seen : List String) (m : List (String × FunctionCallFrequency)),
      (m.map Prod.fst).Nodup → fqEntriesOk m →
      ((fqFrames fs seen m).map Prod.fst).Nodup ∧ fqEntriesOk (fqFrames fs seen m) := by
  induction fs with
  | nil => intro seen m h1 h2; exact ⟨h1, h2⟩
  | cons f fs ih =>
    intro seen m h1 h2
    by_cases hseen : frameSig f ∈ seen
    · simp only [fqFrames, hseen, if_true]
      exact ih seen m h1 h2
    · simp only [fqFrames, hseen, if_false]
      exact ih _ _ (fqUpdate_keys_nodup _ _ _ h1) (fqUpdate_entries _ _ h2)

theorem fqStacks_entries (pd : ProfileData) (css : List Callstack) :
    ∀ (m : List (String × FunctionCallFrequency)),
      (m.map Prod.fst).Nodup → fqEntriesOk m →
      ((fqStacks pd css m).map Prod.fst).Nodup ∧ fqEntriesOk (fqStacks pd css m) := by
  induction css with
  | nil => intro m h1 h2; exact ⟨h1, h2⟩
  | cons cs rest ih =>
    intro m h1 h2
    obtain ⟨g1, g2⟩ := fqFrames_entries (pd.ResolveCallstack cs) [] m h1 h2
    exact ih _ g1 g2

theorem fqFind_of_mem (m : List (String × FunctionCallFrequency))
    (hnd : (m.map Prod.fst).Nodup) :
    ∀ p ∈ m, fqFind m p.1 = some p.2 := by
  induction m with
  | nil => intro p hp; exact absurd hp (List.not_mem_nil p)
  | cons q qs ih =>
    intro p hp
    rcases List.mem_cons.mp hp with hp | hp
    · subst hp; simp [fqFind]
    · have hq : q.1 ≠ p.1 := by
        intro he
        have : q.1 ∈ qs.map Prod.fst := he ▸ List.mem_map_of_mem Prod.fst hp
        exact (List.nodup_cons.mp (by simpa using hnd)).1 this
      simp only [fqFind, hq, if_false]
      exact ih (List.nodup_cons.mp (by simpa using hnd)).2 p hp

theorem deepStackIssues_category (pd : ProfileData) :
    ∀ i ∈ deepStackIssues pd, i.Category = "Deep Call Stack" := by
  intro i hi
  unfold deepStackIssues at hi
  split at hi
  · rw [List.mem_singleton] at hi
    subst hi
    rfl
  · exact absurd hi (List.not_mem_nil i)

theorem cpuHotspotIssues_category (pd : ProfileData) :
    ∀ i ∈ cpuHotspotIssues pd, i.Category = "CPU Hotspot" := by
  intro i hi
  obtain ⟨hs, _, hf⟩ := List.mem_filterMap.mp hi
  split at hf
  · obtain rfl := Option.some.inj hf
    rfl
  · split at hf
    · obtain rfl := Option.some.inj hf
      rfl
    · exact Option.noConfusion hf

theorem hotLoopIssues_category (pd : ProfileData) :
    ∀ i ∈ hotLoopIssues pd, i.Category = "Hot Loop" := by
  intro i hi
  obtain ⟨fr, _, hf⟩ := List.mem_map.mp hi
  subst hf
  rfl

end Analyzer

open Sleepy Analyzer Examples in
/-- C8: the Hot Loop rule fires for a function exactly when its presence
fraction strictly exceeds 80%: the "Hot Loop" issues of
`DetectPerformanceIssues` are (up to the impact sort) exactly one Critical
issue per frequency entry with percentage above 80; every frequency entry's
count is the number of callstacks containing its signature at least once
(per-sample dedup) and its percentage is that count over the number of
callstacks times 100. Concretely, a function present in exactly 80% of the
samples fires no Hot Loop issue, one present in 85% fires exactly one,
Critical. -/
theorem detectIssues_hot_loop_over_80 :
    (∀ pd : ProfileData,
      ((DetectPerformanceIssues pd).filter fun i => decide (i.Category = "Hot Loop")).Perm
        (((GetFunctionCallFrequencies pd).filter fun fr => decide ((80 : ℚ) < fr.Percentage)).map
          fun fr =>
            { Severity := "Critical", Category := "Hot Loop",
              Description := hotLoopDescription fr.Percentage,
              Function := fr.Function, Module := fr.Module, Impact := fr.Percentage })) ∧
    (∀ (pd : ProfileData) (fr : FunctionCallFrequency), fr ∈ GetFunctionCallFrequencies pd →
      fr.Count = (stacksWith pd (funcSig fr.Module fr.Function) pd.Callstacks).length ∧
      fr.Percentage = (if 0 < pd.Callstacks.length then
        (fr.Count : ℚ) / (pd.Callstacks.length : ℚ) * 100 else 0)) ∧
    (DetectPerformanceIssues exProfileEighty).filter
        (fun i => decide (i.Category = "Hot Loop")) = [] ∧
    ((DetectPerformanceIssues exProfileEightyFive).filter
        (fun i => decide (i.Category = "Hot Loop"))).map
        (fun i => (i.Function, i.Module, i.Severity, i.Impact)) =
      [("[0x1]", "?", "Critical", (85 : ℚ))] := by
  refine ⟨fun pd => ?_, fun pd fr hmem => ?_, by decide, by decide⟩
  · rw [DetectPerformanceIssues]
    refine (List.Perm.filter _ (sortDesc_perm _ _)).trans ?_
    rw [List.filter_append, List.filter_append,
      List.filter_eq_nil_iff.mpr
        (fun i hi => by simp [deepStackIssues_category pd i hi]),
      List.filter_eq_nil_iff.mpr
        (fun i hi => by simp [cpuHotspotIssues_category pd i hi]),
      List.filter_eq_self.mpr
        (fun i hi => by simp [hotLoopIssues_category pd i hi])]
    simp only [List.nil_append]
    exact List.Perm.refl _
  · simp only [GetFunctionCallFrequencies] at hmem
    have hmem2 := (sortDesc_perm _ _).mem_iff.mp hmem
    obtain ⟨p, hp, hgp⟩ := List.mem_map.mp hmem2
    have hinv := fqStacks_entries pd pd.Callstacks [] (by simp) (by simp [fqEntriesOk])
    have hfind := fqFind_of_mem _ hinv.1 p hp
    have hcnt : p.2.Count = (stacksWith pd p.1 pd.Callstacks).length := by
      have hcf := fqStacks_cnt pd pd.Callstacks [] p.1
      rw [hfind] at hcf
      simpa [fcntOf, fqFind] using hcf
    obtain ⟨hpct0, hkey⟩ := hinv.2 p hp
    by_cases hn : 0 < pd.Callstacks.length
    · have hh : fr =
          { p.2 with Percentage := (p.2.Count : ℚ) / (pd.Callstacks.length : ℚ) * 100 } := by
        rw [← hgp]; simp [hn]
      constructor
      · rw [hh]
        show p.2.Count = (stacksWith pd (funcSig p.2.Module p.2.Function) pd.Callstacks).length
        rw [← hkey]
        exact hcnt
      · rw [hh, if_pos hn]
    · have hh : fr = p.2 := by rw [← hgp]; simp [hn]
      constructor
      · rw [hh, ← hkey]
        exact hcnt
      · rw [hh, if_neg hn]
        exact hpct0

open Sleepy Analyzer Examples in
/-- Witness for C8's frequency characterization at a concrete profile. -/
theorem detectIssues_hot_loop_over_80_witness :
    exFreqEighty.Count =
      (stacksWith exProfileEighty (funcSig exFreqEighty.Module exFreqEighty.Function)
          exProfileEighty.Callstacks).length ∧
    exFreqEighty.Percentage = (if 0 < exProfileEighty.Callstacks.length then
      (exFreqEighty.Count : ℚ) / (exProfileEighty.Callstacks.length : ℚ) * 100 else 0) :=
  detectIssues_hot_loop_over_80.2.1 exProfileEighty exFreqEighty (by decide)
